import Mathlib

/-!
# Verification of `private_message_report_view.rs` (lemmy, crate `db_views`)

Shallow embedding of the private-message report view: the database state is
a triple of tables (`person`, `private_message`, `private_message_report`),
the diesel query builders `all_joins`, `read`, `list` and the aggregate
`get_report_count` are translated to executable Lean functions over that
state, and the behavioural claims of the specification are proved about
those functions.

Conventions of the embedding:
* machine integers (`i64`, timestamps) are `Int`/`Nat`;
* a SQL join on a primary key is a `List.find?` lookup (primary-key
  uniqueness is an explicit hypothesis where a proof needs it);
* the diesel error NotFound and the rejection by the pagination
  collaborator are the constructors of `DbError`; I/O failures
  (StoreError) are outside the embedding, which models the store as an
  in-memory value.
-/

namespace Lemmy

/-- A row of the `person` table (only the columns the view touches). -/
structure Person where
  id : Nat
  name : String
deriving DecidableEq, Repr

/-- A row of the `private_message` table (only the columns the view touches). -/
structure PrivateMessage where
  id : Nat
  creator_id : Nat
  content : String
deriving DecidableEq, Repr

/-- A row of the `private_message_report` table. -/
structure PrivateMessageReport where
  id : Nat
  creator_id : Nat
  private_message_id : Nat
  original_pm_text : String
  reason : String
  resolved : Bool
  resolver_id : Option Nat
  published : Nat
deriving DecidableEq, Repr

/-- The store state: the three tables the queries touch. -/
structure Db where
  person : List Person
  private_message : List PrivateMessage
  private_message_report : List PrivateMessageReport
deriving Repr

/-- The view struct of `structs.rs`: the denormalized row selected by
`all_joins` (report, message, message author, report creator, optional
resolver). -/
structure PrivateMessageReportView where
  private_message_report : PrivateMessageReport
  private_message : PrivateMessage
  private_message_creator : Person
  creator : Person
  resolver : Option Person
deriving DecidableEq, Repr

/-- The in-embedding error taxonomy: the diesel error NotFound (empty
result of a `.first` call) and the pagination collaborator rejection
(InvalidArgument). -/
inductive DbError where
  | notFound
  | invalidArgument
deriving DecidableEq, Repr

/-- Primary-key lookup in the `person` table. -/
def findPerson (db : Db) (pid : Nat) : Option Person :=
  db.person.find? (fun p => p.id == pid)

/-- Primary-key lookup in the `private_message` table. -/
def findPrivateMessage (db : Db) (mid : Nat) : Option PrivateMessage :=
  db.private_message.find? (fun m => m.id == mid)

/-- One row of `all_joins`: the three inner joins
(`private_message`, message author via `person`, report creator via
`aliases::person1`) drop the report when they fail; the left join on
`aliases::person2` (`resolver_id = person2.id`, nullable) only fills the
optional `resolver` column. -/
def all_joins_row (db : Db) (r : PrivateMessageReport) :
    Option PrivateMessageReportView :=
  match findPrivateMessage db r.private_message_id with
  | none => none
  | some pm =>
    match findPerson db pm.creator_id with
    | none => none
    | some author =>
      match findPerson db r.creator_id with
      | none => none
      | some c =>
        some ⟨r, pm, author, c, r.resolver_id.bind (fun rid => findPerson db rid)⟩

/-- The `all_joins` builder applied to a base set of report rows. -/
def all_joins (db : Db) (rs : List PrivateMessageReport) :
    List PrivateMessageReportView :=
  rs.filterMap (all_joins_row db)

/-- The `read` query: `all_joins(table.find(report_id)).first`, where
`.first` on an empty result is the diesel error NotFound. -/
def read (db : Db) (report_id : Nat) :
    Except DbError PrivateMessageReportView :=
  match all_joins db (db.private_message_report.filter (fun r => r.id == report_id)) with
  | [] => .error .notFound
  | v :: _ => .ok v

/-- Modelled from the spec: `limit_and_offset` lives in
`lemmy_db_schema::utils`, which is not part of the provided source.  Per the
spec, the pagination collaborator validates page/limit as non-negative
(page, when supplied, is an int ≥ 1), rejects bad combinations (e.g.
negative values) with InvalidArgument, and otherwise yields
`offset = (page - 1) * limit`, applying collaborator defaults when an
argument is absent. -/
def limit_and_offset (page : Option Int) (limit : Option Int) :
    Except DbError (Int × Int) :=
  let lim := limit.getD 10
  let pg := page.getD 1
  if pg < 1 ∨ lim < 0 then .error .invalidArgument
  else .ok (lim, lim * (pg - 1))

/-- The options record of `list`. -/
structure PrivateMessageReportQuery where
  page : Option Int := none
  limit : Option Int := none
  unresolved_only : Bool := false

/-- Ordering of `order_by(published.asc())` on joined rows. -/
def publishedAsc (a b : PrivateMessageReportView) : Prop :=
  a.private_message_report.published ≤ b.private_message_report.published

/-- Ordering of `order_by(published.desc())` on joined rows. -/
def publishedDesc (a b : PrivateMessageReportView) : Prop :=
  b.private_message_report.published ≤ a.private_message_report.published

instance : DecidableRel publishedAsc :=
  fun a b =>
    Nat.decLe a.private_message_report.published b.private_message_report.published

instance : DecidableRel publishedDesc :=
  fun a b =>
    Nat.decLe b.private_message_report.published a.private_message_report.published

instance : IsTotal PrivateMessageReportView publishedAsc :=
  ⟨fun a b =>
    Nat.le_total a.private_message_report.published b.private_message_report.published⟩

instance : IsTrans PrivateMessageReportView publishedAsc :=
  ⟨fun _ _ _ => Nat.le_trans⟩

instance : IsTotal PrivateMessageReportView publishedDesc :=
  ⟨fun a b =>
    Nat.le_total b.private_message_report.published a.private_message_report.published⟩

instance : IsTrans PrivateMessageReportView publishedDesc :=
  ⟨fun _ _ _ h h' => Nat.le_trans h' h⟩

/-- The `list` query: joins, then (per `unresolved_only`) filter and order,
then pagination via `limit_and_offset`, then `limit`/`offset`. -/
def list (db : Db) (options : PrivateMessageReportQuery) :
    Except DbError (List PrivateMessageReportView) := do
  let base := all_joins db db.private_message_report
  let query :=
    if options.unresolved_only then
      (base.filter (fun v => v.private_message_report.resolved == false)).insertionSort
        publishedAsc
    else
      base.insertionSort publishedDesc
  let (limit, offset) ← limit_and_offset options.page options.limit
  return (query.drop offset.toNat).take limit.toNat

/-- The aggregate `get_report_count`: reports inner-joined to their
message, filtered to `resolved = false`, counted (an `i64`, hence `Int`).
No person joins. -/
def get_report_count (db : Db) : Int :=
  ((db.private_message_report.filter
      (fun r => (findPrivateMessage db r.private_message_id).isSome)).filter
    (fun r => r.resolved == false)).length

/-- The pre-pagination result of `list`: joined rows, filtered and ordered
per `unresolved_only` (the local `query` value of the source before
`limit` and `offset` are applied). -/
def queryResults (db : Db) (unresolved_only : Bool) :
    List PrivateMessageReportView :=
  if unresolved_only then
    ((all_joins db db.private_message_report).filter
      (fun v => v.private_message_report.resolved == false)).insertionSort publishedAsc
  else
    (all_joins db db.private_message_report).insertionSort publishedDesc

/-- A concrete store with one unresolved and one resolved report, used by
the witnesses below. -/
def exampleDb : Db :=
  { person := [⟨1, "timmy"⟩, ⟨2, "jessica"⟩, ⟨3, "admin"⟩],
    private_message := [⟨10, 1, "something offensive"⟩, ⟨11, 2, "reply"⟩],
    private_message_report :=
      [⟨100, 2, 10, "something offensive", "its offensive", false, none, 5⟩,
       ⟨101, 1, 11, "reply", "spam", true, some 3, 3⟩] }

/-- A concrete store whose only report carries a resolver identifier that
matches no person row, used by the witnesses below. -/
def danglingDb : Db :=
  { person := [⟨1, "timmy"⟩, ⟨2, "jessica"⟩],
    private_message := [⟨10, 1, "x"⟩],
    private_message_report := [⟨100, 2, 10, "x", "r", true, some 77, 5⟩] }

theorem list_eq (db : Db) (options : PrivateMessageReportQuery) :
    list db options =
      match limit_and_offset options.page options.limit with
      | .error e => .error e
      | .ok (lim, off) =>
        .ok (((queryResults db options.unresolved_only).drop off.toNat).take lim.toNat) := by
  unfold list queryResults
  cases h : limit_and_offset options.page options.limit with
  | error e => simp [h, Bind.bind, Except.bind]
  | ok p =>
    cases p with
    | mk lim off => simp [h, Bind.bind, Except.bind, Pure.pure, Except.pure]

theorem all_joins_row_report {db : Db} {r : PrivateMessageReport}
    {v : PrivateMessageReportView} (h : all_joins_row db r = some v) :
    v.private_message_report = r := by
  unfold all_joins_row at h
  split at h
  · exact Option.noConfusion h
  · split at h
    · exact Option.noConfusion h
    · split at h
      · exact Option.noConfusion h
      · cases h
        rfl

theorem all_joins_row_resolver {db : Db} {r : PrivateMessageReport}
    {v : PrivateMessageReportView} (h : all_joins_row db r = some v) :
    v.resolver = r.resolver_id.bind (fun rid => findPerson db rid) := by
  unfold all_joins_row at h
  split at h
  · exact Option.noConfusion h
  · split at h
    · exact Option.noConfusion h
    · split at h
      · exact Option.noConfusion h
      · cases h
        rfl

theorem mem_all_joins {db : Db} {rs : List PrivateMessageReport}
    {v : PrivateMessageReportView} :
    v ∈ all_joins db rs ↔ ∃ r, r ∈ rs ∧ all_joins_row db r = some v := by
  simp [all_joins, List.mem_filterMap]

theorem filter_id_unique {rs : List PrivateMessageReport}
    {r : PrivateMessageReport}
    (hids : rs.Pairwise (fun a b => a.id ≠ b.id)) (hr : r ∈ rs) :
    rs.filter (fun r2 => r2.id == r.id) = [r] := by
  induction rs with
  | nil => cases hr
  | cons a as ih =>
    rw [List.pairwise_cons] at hids
    obtain ⟨ha, hids2⟩ := hids
    rw [List.mem_cons] at hr
    cases hr with
    | inl h =>
      subst h
      have hrest : as.filter (fun r2 => r2.id == r.id) = [] := by
        rw [List.filter_eq_nil_iff]
        intro b hb
        simpa using (ha b hb).symm
      rw [List.filter_cons]
      simp [hrest]
    | inr h =>
      have hne : (a.id == r.id) = false := by
        simpa using ha r h
      rw [List.filter_cons]
      simp [hne, ih hids2 h]

theorem all_joins_singleton {db : Db} {r : PrivateMessageReport}
    {pm : PrivateMessage} {author c : Person}
    (hpm : findPrivateMessage db r.private_message_id = some pm)
    (hauthor : findPerson db pm.creator_id = some author)
    (hc : findPerson db r.creator_id = some c) :
    all_joins db [r] =
      [⟨r, pm, author, c, r.resolver_id.bind (fun rid => findPerson db rid)⟩] := by
  simp [all_joins, all_joins_row, hpm, hauthor, hc]

/-- C1: with `unresolvedOnly = true`, every view returned by `list` has
`resolved = false`, and the returned sequence is ordered by published
timestamp ascending (oldest first). -/
theorem listReports_unresolved_filter_and_fifo
    (db : Db) (options : PrivateMessageReportQuery)
    (l : List PrivateMessageReportView)
    (hu : options.unresolved_only = true)
    (hl : list db options = .ok l) :
    (∀ v ∈ l, v.private_message_report.resolved = false) ∧
      l.Sorted publishedAsc := by
  rw [list_eq, hu] at hl
  cases hpag : limit_and_offset options.page options.limit with
  | error e =>
    rw [hpag] at hl
    exact absurd hl (by simp)
  | ok p =>
    obtain ⟨lim, off⟩ := p
    rw [hpag] at hl
    simp only [Except.ok.injEq] at hl
    subst hl
    have hsub :
        (((queryResults db true).drop off.toNat).take lim.toNat).Sublist
          (queryResults db true) :=
      (List.take_sublist _ _).trans (List.drop_sublist _ _)
    constructor
    · intro v hv
      have hv1 : v ∈ queryResults db true := hsub.mem hv
      unfold queryResults at hv1
      simp only [if_pos, List.mem_insertionSort, List.mem_filter] at hv1
      simpa using hv1.2
    · have hs : (queryResults db true).Sorted publishedAsc := by
        unfold queryResults
        simp only [if_pos]
        exact List.sorted_insertionSort publishedAsc _
      exact List.Pairwise.sublist hsub hs

/-- C1 witness: the theorem instantiated on a concrete store and query. -/
theorem listReports_unresolved_filter_and_fifo_witness :
    ∃ l, list exampleDb { unresolved_only := true } = Except.ok l ∧
      ((∀ v ∈ l, v.private_message_report.resolved = false) ∧
        l.Sorted publishedAsc) :=
  ⟨_, rfl,
    listReports_unresolved_filter_and_fifo exampleDb { unresolved_only := true } _ rfl rfl⟩

/-- C2: with `unresolvedOnly = false`, the sequence returned by `list` is
ordered by published timestamp descending, and no resolution filter is
applied: when pagination does not restrict the result, the returned
sequence is a permutation of all joined rows, resolved and unresolved
alike. -/
theorem listReports_all_desc_no_filter
    (db : Db) (options : PrivateMessageReportQuery)
    (l : List PrivateMessageReportView)
    (hu : options.unresolved_only = false)
    (hl : list db options = .ok l) :
    l.Sorted publishedDesc ∧
      (∀ lim off, limit_and_offset options.page options.limit = .ok (lim, off) →
        off.toNat = 0 →
        (all_joins db db.private_message_report).length ≤ lim.toNat →
        l.Perm (all_joins db db.private_message_report)) := by
  rw [list_eq, hu] at hl
  cases hpag : limit_and_offset options.page options.limit with
  | error e =>
    rw [hpag] at hl
    exact absurd hl (by simp)
  | ok p =>
    obtain ⟨lim, off⟩ := p
    rw [hpag] at hl
    simp only [Except.ok.injEq] at hl
    subst hl
    constructor
    · have hs : (queryResults db false).Sorted publishedDesc := by
        unfold queryResults
        simp only [if_neg Bool.false_ne_true]
        exact List.sorted_insertionSort publishedDesc _
      exact List.Pairwise.sublist
        ((List.take_sublist _ _).trans (List.drop_sublist _ _)) hs
    · intro lim2 off2 hpag2 hoff hlen
      simp only [Except.ok.injEq, Prod.mk.injEq] at hpag2
      obtain ⟨rfl, rfl⟩ := hpag2
      rw [hoff, List.drop_zero]
      have hq : queryResults db false =
          (all_joins db db.private_message_report).insertionSort publishedDesc := by
        unfold queryResults
        simp only [if_neg Bool.false_ne_true]
      rw [hq, List.take_of_length_le (by simpa using hlen)]
      exact List.perm_insertionSort publishedDesc _

/-- C2 witness: the theorem instantiated on a concrete store and query. -/
theorem listReports_all_desc_no_filter_witness :
    ∃ l, list exampleDb { unresolved_only := false } = Except.ok l ∧
      (l.Sorted publishedDesc ∧
        (∀ lim off,
          limit_and_offset (none : Option Int) (none : Option Int) = .ok (lim, off) →
          off.toNat = 0 →
          (all_joins exampleDb exampleDb.private_message_report).length ≤ lim.toNat →
          l.Perm (all_joins exampleDb exampleDb.private_message_report))) :=
  ⟨_, rfl,
    listReports_all_desc_no_filter exampleDb { unresolved_only := false } _ rfl rfl⟩

/-- C7: when the pagination collaborator rejects the page/limit
combination, `list` propagates that error unchanged (InvalidArgument). -/
theorem listReports_invalid_pagination_propagates
    (db : Db) (options : PrivateMessageReportQuery) (e : DbError)
    (h : limit_and_offset options.page options.limit = .error e) :
    list db options = .error e := by
  rw [list_eq, h]

/-- C7 witness: a negative page is rejected with InvalidArgument and `list`
returns exactly that error. -/
theorem listReports_invalid_pagination_propagates_witness :
    limit_and_offset (some (-1)) none = .error DbError.invalidArgument ∧
      list exampleDb { page := some (-1) } = .error DbError.invalidArgument :=
  ⟨rfl,
    listReports_invalid_pagination_propagates exampleDb { page := some (-1) }
      DbError.invalidArgument rfl⟩

/-- C8: when no report matches the filter, `list` succeeds with the empty
sequence (given pagination arguments the collaborator accepts) and in
particular does not fail with the NotFound error that `read` uses. -/
theorem listReports_empty_is_ok
    (db : Db) (options : PrivateMessageReportQuery) (lim off : Int)
    (hpag : limit_and_offset options.page options.limit = .ok (lim, off))
    (hempty : queryResults db options.unresolved_only = []) :
    list db options = .ok [] ∧ list db options ≠ .error DbError.notFound := by
  rw [list_eq, hpag, hempty]
  simp

/-- C8 witness: the theorem instantiated on a store with no reports. -/
theorem listReports_empty_is_ok_witness :
    list { person := [], private_message := [], private_message_report := [] }
        { unresolved_only := true } = .ok [] ∧
      list { person := [], private_message := [], private_message_report := [] }
        { unresolved_only := true } ≠ .error DbError.notFound :=
  listReports_empty_is_ok
    { person := [], private_message := [], private_message_report := [] }
    { unresolved_only := true } 10 0 rfl rfl

/-- C3: the message, author and creator joins are all mandatory inner
joins: a report whose message lookup fails, whose message-author lookup
fails, or whose report-creator lookup fails is excluded from every joined
result; the resolver join is left-outer: once the three inner joins
resolve, the row is present and its `resolver` field is the result of the
nullable lookup (absent rather than the row being dropped). -/
theorem all_joins_inner_and_outer
    (db : Db) (r : PrivateMessageReport)
    (hr : r ∈ db.private_message_report) :
    (findPrivateMessage db r.private_message_id = none →
      ∀ v ∈ all_joins db db.private_message_report,
        v.private_message_report ≠ r) ∧
    (∀ pm, findPrivateMessage db r.private_message_id = some pm →
      findPerson db pm.creator_id = none →
      ∀ v ∈ all_joins db db.private_message_report,
        v.private_message_report ≠ r) ∧
    (∀ pm author, findPrivateMessage db r.private_message_id = some pm →
      findPerson db pm.creator_id = some author →
      findPerson db r.creator_id = none →
      ∀ v ∈ all_joins db db.private_message_report,
        v.private_message_report ≠ r) ∧
    (∀ pm author c,
      findPrivateMessage db r.private_message_id = some pm →
      findPerson db pm.creator_id = some author →
      findPerson db r.creator_id = some c →
      (⟨r, pm, author, c, r.resolver_id.bind (fun rid => findPerson db rid)⟩ :
          PrivateMessageReportView) ∈ all_joins db db.private_message_report) := by
  have hexcl : all_joins_row db r = none →
      ∀ v ∈ all_joins db db.private_message_report,
        v.private_message_report ≠ r := by
    intro hnone v hv hveq
    obtain ⟨r2, _, hrow⟩ := mem_all_joins.mp hv
    have hrep := all_joins_row_report hrow
    rw [hveq] at hrep
    subst hrep
    rw [hnone] at hrow
    exact Option.noConfusion hrow
  refine ⟨?_, ?_, ?_, ?_⟩
  · intro hnone
    refine hexcl ?_
    unfold all_joins_row
    rw [hnone]
  · intro pm hpm hnone
    refine hexcl ?_
    simp only [all_joins_row, hpm, hnone]
  · intro pm author hpm hauthor hnone
    refine hexcl ?_
    simp only [all_joins_row, hpm, hauthor, hnone]
  · intro pm author c hpm hauthor hc
    refine mem_all_joins.mpr ⟨r, hr, ?_⟩
    simp only [all_joins_row, hpm, hauthor, hc]

/-- C3 witness: in the concrete store, the unresolved report joins to a
view whose resolver is absent. -/
theorem all_joins_inner_and_outer_witness :
    (⟨⟨100, 2, 10, "something offensive", "its offensive", false, none, 5⟩,
      ⟨10, 1, "something offensive"⟩, ⟨1, "timmy"⟩, ⟨2, "jessica"⟩, none⟩ :
        PrivateMessageReportView) ∈
      all_joins exampleDb exampleDb.private_message_report :=
  (all_joins_inner_and_outer exampleDb
      ⟨100, 2, 10, "something offensive", "its offensive", false, none, 5⟩
      (by simp [exampleDb])).2.2.2
    ⟨10, 1, "something offensive"⟩ ⟨1, "timmy"⟩ ⟨2, "jessica"⟩ rfl rfl rfl

/-- C4: `get_report_count` counts exactly the reports with
`resolved = false` whose message join resolves; it is a non-negative
integer, it is 0 on an empty store, and it uses no person joins: the count
is unchanged under any replacement of the person table. -/
theorem get_report_count_spec (db : Db) :
    0 ≤ get_report_count db ∧
    get_report_count db =
      ((db.private_message_report.filter (fun r =>
        (r.resolved == false) &&
          (findPrivateMessage db r.private_message_id).isSome)).length : Int) ∧
    (db.private_message_report = [] → get_report_count db = 0) ∧
    (∀ ps : List Person,
      get_report_count { db with person := ps } = get_report_count db) := by
  refine ⟨?_, ?_, ?_, ?_⟩
  · exact Int.natCast_nonneg _
  · simp [get_report_count, List.filter_filter]
  · intro h
    simp [get_report_count, h]
  · intro ps
    rfl

/-- C4 witness: on an empty store the count is 0 (via the theorem at the
empty store). -/
theorem get_report_count_spec_witness :
    get_report_count
      { person := [], private_message := [], private_message_report := [] } = 0 :=
  (get_report_count_spec
      { person := [], private_message := [], private_message_report := [] }).2.2.1 rfl

/-- C6: `read` fails with NotFound exactly when no report row survives the
identifier filter and the mandatory joins; a successful `read` is never an
empty or default view: it carries a report with the requested identifier
that is present in the store. -/
theorem read_notFound_iff (db : Db) (report_id : Nat) :
    (read db report_id = .error DbError.notFound ↔
      all_joins db (db.private_message_report.filter
        (fun r => r.id == report_id)) = []) ∧
    (∀ v, read db report_id = .ok v →
      v.private_message_report.id = report_id ∧
      v.private_message_report ∈ db.private_message_report) := by
  constructor
  · unfold read
    cases h : all_joins db (db.private_message_report.filter
        (fun r => r.id == report_id)) with
    | nil => simp
    | cons a as => simp
  · intro v hv
    unfold read at hv
    cases h : all_joins db (db.private_message_report.filter
        (fun r => r.id == report_id)) with
    | nil =>
      rw [h] at hv
      simp at hv
    | cons a as =>
      rw [h] at hv
      simp only [Except.ok.injEq] at hv
      subst hv
      have ha : a ∈ all_joins db (db.private_message_report.filter
          (fun r => r.id == report_id)) := by
        rw [h]; exact List.mem_cons_self a as
      obtain ⟨r2, hr2, hrow⟩ := mem_all_joins.mp ha
      have hrep := all_joins_row_report hrow
      rw [List.mem_filter] at hr2
      constructor
      · rw [hrep]
        simpa using hr2.2
      · rw [hrep]
        exact hr2.1

/-- C6 witness: a nonexistent identifier yields NotFound on the concrete
store. -/
theorem read_notFound_iff_witness :
    read exampleDb 999 = .error DbError.notFound :=
  (read_notFound_iff exampleDb 999).1.mpr rfl

/-- C10: a resolver identifier that matches no person row does not drop
the view and does not fail: `read` returns the view with `resolver` absent,
the view occurs in the pre-pagination `list` results, and on any joined row
the `resolver` field is present exactly when the resolver identifier is the
id of an existing person. -/
theorem dangling_resolver_view
    (db : Db) (r : PrivateMessageReport) (pm : PrivateMessage)
    (author c : Person) (x : Nat)
    (hids : db.private_message_report.Pairwise (fun a b => a.id ≠ b.id))
    (hr : r ∈ db.private_message_report)
    (hpm : findPrivateMessage db r.private_message_id = some pm)
    (hauthor : findPerson db pm.creator_id = some author)
    (hc : findPerson db r.creator_id = some c)
    (hx : r.resolver_id = some x)
    (hnx : findPerson db x = none) :
    read db r.id = .ok ⟨r, pm, author, c, none⟩ ∧
    (⟨r, pm, author, c, none⟩ : PrivateMessageReportView) ∈
      queryResults db false ∧
    (∀ r2 v, all_joins_row db r2 = some v →
      (v.resolver.isSome ↔ ∃ p ∈ db.person, r2.resolver_id = some p.id)) := by
  have hbind : r.resolver_id.bind (fun rid => findPerson db rid) = none := by
    rw [hx]
    simp [hnx]
  refine ⟨?_, ?_, ?_⟩
  · unfold read
    rw [filter_id_unique hids hr, all_joins_singleton hpm hauthor hc, hbind]
  · unfold queryResults
    rw [if_neg Bool.false_ne_true, List.mem_insertionSort]
    refine mem_all_joins.mpr ⟨r, hr, ?_⟩
    simp only [all_joins_row, hpm, hauthor, hc, hbind]
  · intro r2 v hrow
    rw [all_joins_row_resolver hrow]
    cases hrid : r2.resolver_id with
    | none => simp
    | some rid =>
      simp only [Option.some_bind, findPerson, List.find?_isSome, beq_iff_eq,
        Option.some.injEq]
      constructor
      · rintro ⟨p, hp, he⟩
        exact ⟨p, hp, he.symm⟩
      · rintro ⟨p, hp, he⟩
        exact ⟨p, hp, he.symm⟩

/-- C10 witness: the concrete store with a dangling resolver identifier
still answers `read` with the view and an absent resolver. -/
theorem dangling_resolver_view_witness :
    read danglingDb 100 =
      .ok ⟨⟨100, 2, 10, "x", "r", true, some 77, 5⟩, ⟨10, 1, "x"⟩,
        ⟨1, "timmy"⟩, ⟨2, "jessica"⟩, none⟩ :=
  (dangling_resolver_view danglingDb
      ⟨100, 2, 10, "x", "r", true, some 77, 5⟩ ⟨10, 1, "x"⟩
      ⟨1, "timmy"⟩ ⟨2, "jessica"⟩ 77
      (by simp [danglingDb]) (by simp [danglingDb]) rfl rfl rfl rfl rfl).1

theorem all_joins_filter_length
    (db : Db) (rs : List PrivateMessageReport)
    (hauthor : ∀ m ∈ db.private_message, (findPerson db m.creator_id).isSome)
    (hcreator : ∀ r ∈ rs, (findPerson db r.creator_id).isSome) :
    ((all_joins db rs).filter
        (fun v => v.private_message_report.resolved == false)).length =
      ((rs.filter
          (fun r => (findPrivateMessage db r.private_message_id).isSome)).filter
        (fun r => r.resolved == false)).length := by
  induction rs with
  | nil => rfl
  | cons a as ih =>
    have iha := ih (fun r hr => hcreator r (List.mem_cons_of_mem a hr))
    cases hpm : findPrivateMessage db a.private_message_id with
    | none =>
      have hrow : all_joins_row db a = none := by
        unfold all_joins_row
        rw [hpm]
      have hpmf : (findPrivateMessage db a.private_message_id).isSome = false := by
        rw [hpm]
        rfl
      unfold all_joins
      rw [List.filterMap_cons_none hrow, List.filter_cons, hpmf]
      simpa using iha
    | some pm =>
      obtain ⟨author, hauthor2⟩ := Option.isSome_iff_exists.mp
        (hauthor pm (List.mem_of_find?_eq_some hpm))
      obtain ⟨c, hc⟩ := Option.isSome_iff_exists.mp
        (hcreator a (List.mem_cons_self a as))
      have hrow : all_joins_row db a =
          some ⟨a, pm, author, c,
            a.resolver_id.bind (fun rid => findPerson db rid)⟩ := by
        simp only [all_joins_row, hpm, hauthor2, hc]
      have hpmt : (findPrivateMessage db a.private_message_id).isSome = true := by
        rw [hpm]
        rfl
      unfold all_joins
      rw [List.filterMap_cons_some hrow]
      cases hres : a.resolved with
      | false =>
        simp [all_joins, List.filter_cons, hpmt, hres] at iha ⊢
        omega
      | true =>
        simp [all_joins, List.filter_cons, hpmt, hres] at iha ⊢
        omega

/-- C5: the count of `get_report_count` equals the number of elements
returned by `list` with `unresolvedOnly = true` when pagination does not
restrict the result, under the referential integrity the store enforces by
foreign keys: every report creator and every message author is an existing
person. -/
theorem count_agrees_with_list
    (db : Db) (options : PrivateMessageReportQuery)
    (l : List PrivateMessageReportView) (lim off : Int)
    (hu : options.unresolved_only = true)
    (hauthor : ∀ m ∈ db.private_message, (findPerson db m.creator_id).isSome)
    (hcreator : ∀ r ∈ db.private_message_report,
      (findPerson db r.creator_id).isSome)
    (hpag : limit_and_offset options.page options.limit = .ok (lim, off))
    (hoff : off.toNat = 0)
    (hlim : (queryResults db true).length ≤ lim.toNat)
    (hl : list db options = .ok l) :
    get_report_count db = l.length := by
  rw [list_eq, hu, hpag] at hl
  simp only [Except.ok.injEq] at hl
  subst hl
  rw [hoff, List.drop_zero, List.take_of_length_le hlim]
  unfold queryResults
  simp only [if_pos]
  rw [List.length_insertionSort,
    all_joins_filter_length db db.private_message_report hauthor hcreator]
  simp [get_report_count]

/-- C5 witness: on the concrete store with one unresolved report, the
theorem yields the count 1. -/
theorem count_agrees_with_list_witness :
    get_report_count exampleDb = 1 := by
  have h := count_agrees_with_list exampleDb { unresolved_only := true } _ 10 0
    rfl (by decide) (by decide) rfl rfl (by decide) rfl
  simpa using h

/-- C9: `read` and `list` compose views through the same `all_joins`
structure: every view occurring in a `list` result is returned identically
by `read` on its report identifier (report identifiers being unique, as the
primary key makes them). -/
theorem read_agrees_with_list
    (db : Db) (options : PrivateMessageReportQuery)
    (l : List PrivateMessageReportView) (v : PrivateMessageReportView)
    (hids : db.private_message_report.Pairwise (fun a b => a.id ≠ b.id))
    (hl : list db options = .ok l) (hv : v ∈ l) :
    read db v.private_message_report.id = .ok v := by
  have hmem : v ∈ all_joins db db.private_message_report := by
    rw [list_eq] at hl
    cases hpag : limit_and_offset options.page options.limit with
    | error e =>
      rw [hpag] at hl
      exact absurd hl (by simp)
    | ok p =>
      obtain ⟨lim, off⟩ := p
      rw [hpag] at hl
      simp only [Except.ok.injEq] at hl
      subst hl
      have hq : v ∈ queryResults db options.unresolved_only :=
        ((List.take_sublist _ _).trans (List.drop_sublist _ _)).mem hv
      unfold queryResults at hq
      cases hu : options.unresolved_only with
      | false =>
        rw [hu, if_neg Bool.false_ne_true, List.mem_insertionSort] at hq
        exact hq
      | true =>
        rw [hu] at hq
        simp only [if_pos, List.mem_insertionSort, List.mem_filter] at hq
        exact hq.1
  obtain ⟨r, hr, hrow⟩ := mem_all_joins.mp hmem
  have hrep := all_joins_row_report hrow
  have hsingle : all_joins db [r] = [v] := by
    unfold all_joins
    rw [List.filterMap_cons_some hrow]
    rfl
  unfold read
  rw [hrep, filter_id_unique hids hr, hsingle]

/-- C9 witness: on the concrete store, `read` of the first listed report
returns exactly the listed view. -/
theorem read_agrees_with_list_witness :
    read exampleDb 100 =
      .ok ⟨⟨100, 2, 10, "something offensive", "its offensive", false, none, 5⟩,
        ⟨10, 1, "something offensive"⟩, ⟨1, "timmy"⟩, ⟨2, "jessica"⟩, none⟩ :=
  read_agrees_with_list exampleDb {}
    [⟨⟨100, 2, 10, "something offensive", "its offensive", false, none, 5⟩,
        ⟨10, 1, "something offensive"⟩, ⟨1, "timmy"⟩, ⟨2, "jessica"⟩, none⟩,
      ⟨⟨101, 1, 11, "reply", "spam", true, some 3, 3⟩,
        ⟨11, 2, "reply"⟩, ⟨2, "jessica"⟩, ⟨1, "timmy"⟩, some ⟨3, "admin"⟩⟩]
    ⟨⟨100, 2, 10, "something offensive", "its offensive", false, none, 5⟩,
      ⟨10, 1, "something offensive"⟩, ⟨1, "timmy"⟩, ⟨2, "jessica"⟩, none⟩
    (by decide) rfl (by decide)

end Lemmy

section Sanity
open Lemmy

example :
    let db : Db :=
      { person := [⟨1, "timmy"⟩, ⟨2, "jessica"⟩],
        private_message := [⟨10, 1, "something offensive"⟩],
        private_message_report :=
          [⟨100, 2, 10, "something offensive", "its offensive", false, none, 5⟩] }
    (list db {}).map (·.length) = .ok 1 := by rfl

example :
    let db : Db :=
      { person := [⟨1, "timmy"⟩, ⟨2, "jessica"⟩],
        private_message := [⟨10, 1, "something offensive"⟩],
        private_message_report :=
          [⟨100, 2, 10, "something offensive", "its offensive", false, none, 5⟩] }
    get_report_count db = 1 := by rfl

example :
    let db : Db :=
      { person := [⟨1, "timmy"⟩, ⟨2, "jessica"⟩],
        private_message := [⟨10, 1, "x"⟩],
        private_message_report := [⟨100, 2, 10, "x", "r", false, none, 5⟩] }
    (read db 100).isOk = true := by rfl

end Sanity
